import Mathlib

/-!
Verification of the HVAC scraper repository: a shallow embedding of the
record-cleaning pipeline (`data_processor.py`), the job execution body and
routes (`src/routes/scraping.py`), and the job model
(`src/models/scraping_job.py`), together with theorems settling the frozen
claims about the specification.

Modelling conventions: Python strings are `String`/`List Char`; the regex
character classes of the source are modelled over ASCII (digits `0-9`,
word characters `A-Za-z0-9_`, the whitespace recognised by
`Char.isWhitespace`); Python ints are `Int`; Python floats that only carry
exact decimal arithmetic in the claims are modelled as `ℚ`; fallible steps
return `Except`; the DataFrame is a `List` of records.
-/

namespace HvacScraper

/-! ### Character-level helpers -/

def isWS (c : Char) : Bool := c.isWhitespace

def isWordChar (c : Char) : Bool := c.isAlphanum || c = '_'

def lowerL (s : List Char) : List Char := s.map Char.toLower

/-- Python `str.strip()` on a list of characters. -/
def trimL (s : List Char) : List Char :=
  ((s.dropWhile isWS).reverse.dropWhile isWS).reverse

/-- The last `k` characters of `s` (all of `s` when `k` exceeds its length). -/
def lastN (k : Nat) (s : List Char) : List Char := s.drop (s.length - k)

/-- Regex word boundary test: true when the character just before index `i`
is absent or is not a word character. -/
def prevNonWord (s : List Char) (i : Nat) : Bool :=
  match i with
  | 0 => true
  | j + 1 => !(s.get? j).elim false isWordChar

/-! ### `_clean_business_name` (data_processor.py lines 89-112) -/

/-- `re.match` with pattern `^".*"$` (a `.` does not cross a newline). -/
def isQuotedArtifact (s : List Char) : Bool :=
  decide (2 ≤ s.length) && decide (s.head? = some '"') &&
    decide (s.getLast? = some '"') && !(s.contains '\n')

/-- Helper for the `^\d+\.` pattern: consume digits, then demand a dot. -/
def numTail : List Char → Bool
  | [] => false
  | c :: rest => if c.isDigit then numTail rest else decide (c = '.')

/-- `re.match` with pattern `^\d+\.\s*`. -/
def isNumberedArtifact : List Char → Bool
  | [] => false
  | c :: rest => c.isDigit && numTail rest

def gmapsL : List Char := ['g', 'o', 'o', 'g', 'l', 'e', ' ', 'm', 'a', 'p', 's']

/-- `re.match` with pattern `Google Maps.*` under IGNORECASE. -/
def isGMapsArtifact (s : List Char) : Bool :=
  decide (lowerL (s.take gmapsL.length) = gmapsL)

/-- `re.sub` with the anchored pattern `\bPAT\.?$` under IGNORECASE,
replacement `repl` (used with PAT/repl = llc/LLC, inc/Inc, corp/Corp). -/
def subSuffix (pat repl : List Char) (s : List Char) : List Char :=
  let l := lowerL s
  if lastN (pat.length + 1) l = pat ++ ['.'] ∧
      prevNonWord s (s.length - (pat.length + 1)) = true then
    s.take (s.length - (pat.length + 1)) ++ repl
  else if lastN pat.length l = pat ∧ prevNonWord s (s.length - pat.length) = true then
    s.take (s.length - pat.length) ++ repl
  else s

def llcPat : List Char := ['l', 'l', 'c']
def llcRepl : List Char := ['L', 'L', 'C']
def incPat : List Char := ['i', 'n', 'c']
def incRepl : List Char := ['I', 'n', 'c']
def corpPat : List Char := ['c', 'o', 'r', 'p']
def corpRepl : List Char := ['C', 'o', 'r', 'p']

/-- The three suffix substitutions of `_clean_business_name`, in source
order: LLC, then Inc, then Corp. -/
def chainSub (s : List Char) : List Char :=
  subSuffix corpPat corpRepl (subSuffix incPat incRepl (subSuffix llcPat llcRepl s))

/-- The suffix-standardisation part of `_clean_business_name`, applied after
the artifact checks, followed by the final `strip()`. -/
def cleanNameCore (s : List Char) : List Char := trimL (chainSub s)

/-- `HVACDataProcessor._clean_business_name`. -/
def cleanNameL (s : List Char) : List Char :=
  if s = [] then []
  else if isQuotedArtifact (trimL s) || isNumberedArtifact (trimL s) ||
      isGMapsArtifact (trimL s) then []
  else cleanNameCore (trimL s)

def cleanBusinessName (s : String) : String := String.mk (cleanNameL s.data)

/-! ### `_validate_phone_number` (data_processor.py lines 114-130) -/

/-- Formats ten digits as the source does: `(AAA) BBB-CCCC`. -/
def fmtPhone (d : List Char) : List Char :=
  '(' :: d.take 3 ++ ')' :: ' ' :: ((d.drop 3).take 3 ++ '-' :: d.drop 6)

/-- `HVACDataProcessor._validate_phone_number`. -/
def validatePhoneL (s : List Char) : List Char :=
  if s = [] then []
  else
    let ds := (trimL s).filter Char.isDigit
    if ds.length = 10 then fmtPhone ds
    else if ds.length = 11 ∧ ds.head? = some '1' then fmtPhone (ds.drop 1)
    else []

def validatePhoneNumber (s : String) : String := String.mk (validatePhoneL s.data)

/-! ### `_clean_address` (data_processor.py lines 132-147) -/

def addressSentinels : List (List Char) :=
  ["Unknown".data, "N/A".data, "Not found".data, "No reviews".data]

/-- `re.sub` with pattern `\s+`, replacement a single space: the flag records
whether the current position is inside a whitespace run already emitted. -/
def collapseWSAux : Bool → List Char → List Char
  | _, [] => []
  | inRun, c :: rest =>
    if isWS c then
      if inRun then collapseWSAux true rest
      else ' ' :: collapseWSAux true rest
    else c :: collapseWSAux false rest

def collapseWS (s : List Char) : List Char := collapseWSAux false s

/-- `re.sub` with pattern `,\s*,`, replacement a single comma, scanning
non-overlapping matches left to right and resuming after each match.
The `Option` state holds the whitespace buffered after an emitted comma. -/
def ccAux : Option (List Char) → List Char → List Char
  | none, [] => []
  | some buf, [] => buf
  | none, c :: rest =>
    if c = ',' then ',' :: ccAux (some []) rest
    else c :: ccAux none rest
  | some buf, c :: rest =>
    if c = ',' then ccAux none rest
    else if isWS c then ccAux (some (buf ++ [c])) rest
    else buf ++ c :: ccAux none rest

def collapseCommas (s : List Char) : List Char := ccAux none s

/-- `HVACDataProcessor._clean_address`. -/
def cleanAddressL (s : List Char) : List Char :=
  if s = [] then []
  else
    let t := trimL s
    if t ∈ addressSentinels then []
    else trimL (collapseCommas (collapseWS t))

def cleanAddress (s : String) : String := String.mk (cleanAddressL s.data)

/-! ### `_clean_owner_name` (data_processor.py lines 149-176) -/

def ownerSentinels : List (List Char) :=
  ["Unknown".data, "N/A".data, "Not found".data, "Not explicitly stated".data]

/-- State of the scan for `re.sub` with pattern `\s*\([^)]*\)`:
outside a candidate match, buffering a whitespace run, or buffering from the
start of a candidate match that still needs its closing parenthesis. -/
inductive RPState where
  | out : RPState
  | ws (buf : List Char) : RPState
  | inp (buf : List Char) : RPState

def rpAux : RPState → List Char → List Char
  | .out, [] => []
  | .ws buf, [] => buf
  | .inp buf, [] => buf
  | .out, c :: rest =>
    if c = '(' then rpAux (.inp ['(']) rest
    else if isWS c then rpAux (.ws [c]) rest
    else c :: rpAux .out rest
  | .ws buf, c :: rest =>
    if c = '(' then rpAux (.inp (buf ++ ['('])) rest
    else if isWS c then rpAux (.ws (buf ++ [c])) rest
    else buf ++ c :: rpAux .out rest
  | .inp buf, c :: rest =>
    if c = ')' then rpAux .out rest
    else rpAux (.inp (buf ++ [c])) rest

def removeParens (s : List Char) : List Char := rpAux .out s

def titleVariants : List (List Char) :=
  ["mr.".data, "mrs.".data, "ms.".data, "dr.".data,
   "mr".data, "mrs".data, "ms".data, "dr".data]

/-- `re.sub` with pattern `^(Mr\.?|Mrs\.?|Ms\.?|Dr\.?)\s+` under IGNORECASE:
a title variant must be followed by at least one whitespace character, and
the whole whitespace run is removed with it. -/
def removeTitle (s : List Char) : List Char :=
  let l := lowerL s
  let fits := fun (v : List Char) =>
    v.isPrefixOf l &&
      (match l.get? v.length with
       | some c => isWS c
       | none => false)
  match titleVariants.find? fits with
  | some v => (s.drop v.length).dropWhile isWS
  | none => s

/-- Python `str.split()` with no separator: split on whitespace runs. -/
def splitWSAux : List Char → List Char → List (List Char)
  | [], acc => if acc = [] then [] else [acc.reverse]
  | c :: rest, acc =>
    if isWS c then
      if acc = [] then splitWSAux rest []
      else acc.reverse :: splitWSAux rest []
    else splitWSAux rest (c :: acc)

def splitWS (s : List Char) : List (List Char) := splitWSAux s []

/-- `re.match` with pattern `^[A-Z][a-z]+$`. -/
def isCapWord (w : List Char) : Bool :=
  match w with
  | [] => false
  | c :: rest => c.isUpper && decide (rest ≠ []) && rest.all Char.isLower

/-- `HVACDataProcessor._clean_owner_name`. -/
def cleanOwnerL (s : List Char) : List Char :=
  if s = [] then []
  else
    let t := trimL s
    if t ∈ ownerSentinels then []
    else
      let t2 := removeTitle (removeParens t)
      let ws := splitWS t2
      if ws.length < 2 ∨ 4 < ws.length then []
      else if ws.all isCapWord then trimL t2
      else []

def cleanOwnerName (s : String) : String := String.mk (cleanOwnerL s.data)

/-! ### Business records (`BusinessInfo` / a DataFrame row) -/

/-- One business record, at any pipeline stage: the `BusinessInfo` fields
that the pipeline reads, plus the two computed score columns (0 before
scoring, matching the `BusinessData` defaults). -/
structure B where
  name : String := ""
  address : String := ""
  phone : String := ""
  website : String := ""
  star_rating : ℚ := 0
  review_count : Int := 0
  hours : String := ""
  category : String := ""
  owner_name : String := ""
  additional_contact : String := ""
  location : String := ""
  priority_score : Int := 0
  data_quality_score : ℚ := 0
  deriving DecidableEq, Repr

/-- The per-row normalisation of `clean_and_validate_data` (lines 53-67):
the string cleaners applied to their columns; the numeric coercions of
`review_count` and `star_rating` are the identity on already-numeric data. -/
def normalizeRec (r : B) : B :=
  { r with
    name := cleanBusinessName r.name
    phone := validatePhoneNumber r.phone
    address := cleanAddress r.address
    owner_name := cleanOwnerName r.owner_name }

/-! ### Scoring (`_calculate_priority_score`, `_calculate_data_quality_score`) -/

/-- `HVACDataProcessor._calculate_priority_score` (lines 178-201). -/
def priorityScore (r : B) : Int :=
  let s1 : Int := 0 + r.review_count * 10
  let s2 : Int := s1 - (if r.phone ≠ "" then 50 else 0)
  let s3 : Int := s2 - (if r.owner_name ≠ "" then 30 else 0)
  let s4 : Int := s3 -
    (if r.website ≠ "" ∧ r.website ≠ "Not found" ∧ r.website ≠ "N/A" then 10 else 0)
  let s5 : Int := s4 - (if 0 < r.star_rating then Int.floor (r.star_rating * 2) else 0)
  max 0 s5

/-- `HVACDataProcessor._calculate_data_quality_score` (lines 203-238). -/
def dataQualityScore (r : B) : ℚ :=
  let score : ℚ :=
    (0 + (if r.name ≠ "" then 20 else 0))
      + (if r.phone ≠ "" then 25 else 0)
      + (if r.address ≠ "" then 15 else 0)
      + (if r.owner_name ≠ "" then 20 else 0)
      + (if r.website ≠ "" ∧ r.website ≠ "Not found" ∧ r.website ≠ "N/A" then 10 else 0)
      + (if 0 < r.review_count then 5 else 0)
      + (if r.additional_contact ≠ "" then 5 else 0)
  let maxScore : ℚ := 0 + 20 + 25 + 15 + 20 + 10 + 5 + 5
  if 0 < maxScore then score / maxScore * 100 else 0

/-- The two calculated columns added at lines 81-82. -/
def addScores (r : B) : B :=
  { r with priority_score := priorityScore r, data_quality_score := dataQualityScore r }

/-! ### Deduplication (`drop_duplicates` + the name filter, lines 69-78) -/

def dkey (r : B) : String × String := (r.name, r.phone)

/-- `df.drop_duplicates(subset=['name', 'phone'], keep='first')`: keep a row
when its key has not been seen yet. -/
def dedupByKey : List B → List (String × String) → List B
  | [], _ => []
  | r :: rs, seen =>
    if dkey r ∈ seen then dedupByKey rs seen
    else r :: dedupByKey rs (dkey r :: seen)

def dropDuplicatesFirst (l : List B) : List B := dedupByKey l []

/-- Lines 69-78 of `clean_and_validate_data`: first-occurrence
deduplication on (name, phone), then removal of rows with an empty name. -/
def dedupeStage (l : List B) : List B :=
  (dropDuplicatesFirst l).filter (fun r => decide (r.name ≠ ""))

/-- The full record pipeline of `clean_and_validate_data` on a non-empty
batch: normalise every row, deduplicate, drop empty names, add scores. -/
def cleanRecords (l : List B) : List B :=
  (dedupeStage (l.map normalizeRec)).map addScores

/-! ### RankFilter (`filter_by_criteria`, lines 240-255) -/

/-- The boolean mask of `filter_by_criteria`. -/
def criteriaPred (maxReviews : Int) (minQuality : ℚ) (r : B) : Bool :=
  decide (r.review_count ≤ maxReviews) &&
    decide (minQuality ≤ r.data_quality_score) && decide (r.phone ≠ "")

/-- The ascending sort key order of
`sort_values(['priority_score', 'review_count', 'name'])`. -/
def keyLe (a b : B) : Prop :=
  a.priority_score < b.priority_score ∨
    (a.priority_score = b.priority_score ∧
      (a.review_count < b.review_count ∨
        (a.review_count = b.review_count ∧ a.name ≤ b.name)))

instance : DecidableRel keyLe := by
  intro a b
  unfold keyLe
  infer_instance

instance : IsTotal B keyLe := by
  constructor
  intro a b
  unfold keyLe
  rcases lt_trichotomy a.priority_score b.priority_score with h | h | h
  · exact Or.inl (Or.inl h)
  · rcases lt_trichotomy a.review_count b.review_count with h2 | h2 | h2
    · exact Or.inl (Or.inr ⟨h, Or.inl h2⟩)
    · rcases le_total a.name b.name with h3 | h3
      · exact Or.inl (Or.inr ⟨h, Or.inr ⟨h2, h3⟩⟩)
      · exact Or.inr (Or.inr ⟨h.symm, Or.inr ⟨h2.symm, h3⟩⟩)
    · exact Or.inr (Or.inr ⟨h.symm, Or.inl h2⟩)
  · exact Or.inr (Or.inl h)

instance : IsTrans B keyLe := by
  constructor
  intro a b c hab hbc
  unfold keyLe at hab hbc ⊢
  rcases hab with h1 | ⟨e1, h1⟩
  · rcases hbc with h2 | ⟨e2, _⟩
    · exact Or.inl (h1.trans h2)
    · exact Or.inl (e2 ▸ h1)
  · rcases hbc with h2 | ⟨e2, h2⟩
    · exact Or.inl (e1 ▸ h2)
    · refine Or.inr ⟨e1.trans e2, ?_⟩
      rcases h1 with h1 | ⟨f1, h1⟩
      · rcases h2 with h2 | ⟨f2, _⟩
        · exact Or.inl (h1.trans h2)
        · exact Or.inl (f2 ▸ h1)
      · rcases h2 with h2 | ⟨f2, h2⟩
        · exact Or.inl (f1 ▸ h2)
        · exact Or.inr ⟨f1.trans f2, h1.trans h2⟩

/-- `filter_by_criteria` on the processed rows: boolean mask, then ascending
stable sort on (priority_score, review_count, name). -/
def rankFilter (l : List B) (maxReviews : Int) (minQuality : ℚ) : List B :=
  List.insertionSort keyLe (l.filter (criteriaPred maxReviews minQuality))

/-! ### The processor object and the execution body
(`ScrapingJobManager._execute_job`, scraping.py lines 40-148) -/

/-- `HVACDataProcessor.processed_data`, `None` until
`clean_and_validate_data` stores a frame. -/
structure Processor where
  processed : Option (List B)
  deriving DecidableEq, Repr

/-- `clean_and_validate_data` (lines 41-87): on an empty frame it warns and
returns early WITHOUT assigning `self.processed_data`; otherwise it runs the
pipeline and stores the result. -/
def cleanAndValidateData (bs : List B) : Processor × List B :=
  if bs = [] then (⟨none⟩, [])
  else (⟨some (cleanRecords bs)⟩, cleanRecords bs)

/-- `filter_by_criteria` including its guard (lines 240-255): raises when
`processed_data` is `None`. -/
def filterByCriteria (p : Processor) (maxReviews : Int) (minQuality : ℚ) :
    Except String (List B) :=
  match p.processed with
  | none => .error "No processed data available. Run clean_and_validate_data() first."
  | some d => .ok (rankFilter d maxReviews minQuality)

inductive Status where
  | pending | running | completed | failed | cancelled
  deriving DecidableEq, Repr

/-- The `ScrapingJob` fields the execution body reads. -/
structure Job where
  job_name : String := ""
  locations : List String := []
  business_type : String := "HVAC"
  max_reviews : Int := 20
  min_quality_score : ℚ := 40
  status : Status := .pending
  deriving DecidableEq, Repr

/-- The external collaborators of one run: the scraper call per location and
the outcome of report generation. -/
structure Env where
  extract : String → Except String (List B)
  exportResult : Except String Unit

/-- The per-location scrape loop (lines 58-61): stops at the first error. -/
def extractAll (env : Env) : List String → Except String (List B)
  | [] => .ok []
  | loc :: rest =>
    match env.extract loc with
    | .error e => .error e
    | .ok bs =>
      match extractAll env rest with
      | .error e => .error e
      | .ok more => .ok (bs ++ more)

/-- Observable outcome of one execution of `_execute_job`: the final job
fields, the committed `BusinessData` rows of this run, and the argument the
report exporter was invoked with (if it was). -/
structure ExecOutcome where
  status : Status
  startedAt : Bool
  completedAt : Bool
  errorMessage : Option String
  store : List B
  totalFound : Nat
  totalMatching : Nat
  exportedWith : Option (List B)
  deriving DecidableEq, Repr

/-- `ScrapingJobManager._execute_job` (lines 40-148): set Running; scrape all
locations; commit the raw rows; clean; filter; export; on success set
Completed with counts; any raised error is caught by the outer handler,
which sets Failed with the message and a completion timestamp (the rows
already committed stay in the store). -/
def executeJob (env : Env) (job : Job) : ExecOutcome :=
  let base : ExecOutcome :=
    { status := .running
      startedAt := true
      completedAt := false
      errorMessage := none
      store := []
      totalFound := 0
      totalMatching := 0
      exportedWith := none }
  match extractAll env job.locations with
  | .error e => { base with status := .failed, completedAt := true, errorMessage := some e }
  | .ok allB =>
    let withStore := { base with store := allB }
    match filterByCriteria (cleanAndValidateData allB).1 job.max_reviews
        job.min_quality_score with
    | .error e =>
      { withStore with status := .failed, completedAt := true, errorMessage := some e }
    | .ok filtered =>
      match env.exportResult with
      | .error e =>
        { withStore with
          exportedWith := some filtered
          status := .failed
          completedAt := true
          errorMessage := some e }
      | .ok _ =>
        { withStore with
          exportedWith := some filtered
          status := .completed
          completedAt := true
          totalFound := allB.length
          totalMatching := filtered.length }

/-! ### The job lifecycle as a labelled transition system
(routes `start_job`, `cancel_job` and the threaded execution body) -/

inductive Phase where
  | idle | spawned | working
  deriving DecidableEq, Repr

/-- The shared state one job id sees: its persisted status and timestamps,
whether `active_jobs` holds a handle for it, and how far its
fire-and-forget execution thread has come. -/
structure MState where
  status : Status
  handle : Bool
  phase : Phase
  startedAt : Bool
  completedAt : Bool
  hasError : Bool
  deriving DecidableEq, Repr

/-- The atomic events: the accepted start route (status check at line 200
plus `start_job` registration at lines 29-38), the first statements of the
execution thread (lines 48-51, unconditional), the accepted cancel route
(lines 371-397), and the two ways the thread body ends (lines 112-131 on
success, 136-143 on error) both of which update the status unconditionally
and drop the handle (lines 145-148). -/
inductive Ev where
  | start | execBegin | cancel | execDone | execFail
  deriving DecidableEq, Repr

def stepJob (s : MState) (e : Ev) : Option MState :=
  match e with
  | .start =>
    if s.status = .pending ∧ s.handle = false then
      some { s with handle := true, phase := .spawned }
    else none
  | .execBegin =>
    if s.phase = .spawned then
      some { s with status := .running, startedAt := true, phase := .working }
    else none
  | .cancel =>
    if s.status = .pending ∨ s.status = .running then
      some { s with status := .cancelled, completedAt := true, handle := false }
    else none
  | .execDone =>
    if s.phase = .working then
      some { s with
             status := .completed
             completedAt := true
             phase := .idle
             handle := false }
    else none
  | .execFail =>
    if s.phase = .working then
      some { s with
             status := .failed
             completedAt := true
             hasError := true
             phase := .idle
             handle := false }
    else none

def runJob (s : MState) : List Ev → Option MState
  | [] => some s
  | e :: es =>
    match stepJob s e with
    | none => none
    | some s2 => runJob s2 es

def initMState : MState :=
  { status := .pending, handle := false, phase := .idle,
    startedAt := false, completedAt := false, hasError := false }

def isTerminal : Status → Bool
  | .completed => true
  | .failed => true
  | .cancelled => true
  | _ => false

/-! ### Job creation (`create_job` route, scraping.py lines 153-190) -/

/-- The parsed JSON body of a creation request; `none` marks an absent key. -/
structure CreateRequest where
  job_name : Option String := none
  locations : Option (List String) := none
  business_type : Option String := none
  max_reviews : Option Int := none
  min_quality_score : Option ℚ := none
  deriving DecidableEq, Repr

/-- `create_job`: reject an absent body, then reject any missing required
KEY (only presence is tested); otherwise build the job with defaults,
persist it, and return it. -/
def createJob (req : Option CreateRequest) (store : List Job) :
    Except String Job × List Job :=
  match req with
  | none => (.error "No JSON data provided", store)
  | some d =>
    match d.job_name with
    | none => (.error "Missing required field: job_name", store)
    | some nm =>
      match d.locations with
      | none => (.error "Missing required field: locations", store)
      | some locs =>
        let j : Job :=
          { job_name := nm, locations := locs,
            business_type := d.business_type.getD "HVAC",
            max_reviews := d.max_reviews.getD 20,
            min_quality_score := d.min_quality_score.getD 40,
            status := .pending }
        (.ok j, store ++ [j])

/-! ### Concrete data used by witnesses and counterexamples -/

/-- Scenario-6 record of the spec: phone and owner present, a name, no
website, no reviews, rating 0. -/
def exampleRec : B :=
  { name := "Acme Heating", phone := "(208) 555-1234", owner_name := "John Smith" }

/-- A record whose address has three consecutive commas and whose owner
field carries two stacked honorifics. -/
def trickyRec : B :=
  { name := "Acme Heating", address := ",,,", owner_name := "Dr. Mr Smith" }

/-- A plain raw business as an extractor could yield it. -/
def rawB : B :=
  { name := "Valley Air LLC.", address := "12 Main St", phone := "2085551234",
    owner_name := "Jane Doe", location := "Boise", review_count := 2 }

/-- The spec formula for the quality score: the sum of the weights of the
present fields (spec section 4.3). -/
def specWeightSum (r : B) : ℚ :=
  (if r.name ≠ "" then (20 : ℚ) else 0) + (if r.phone ≠ "" then 25 else 0)
    + (if r.address ≠ "" then 15 else 0) + (if r.owner_name ≠ "" then 20 else 0)
    + (if r.website ≠ "" ∧ r.website ≠ "Not found" ∧ r.website ≠ "N/A" then 10 else 0)
    + (if 0 < r.review_count then 5 else 0)
    + (if r.additional_contact ≠ "" then 5 else 0)

def envEmpty : Env := { extract := fun _ => .ok [], exportResult := .ok () }

def envExportFail : Env :=
  { extract := fun _ => .ok [rawB], exportResult := .error "Export failed" }

def envExtractFail : Env :=
  { extract := fun _ => .error "Scrape failed", exportResult := .ok () }

def jobOneLoc : Job := { job_name := "run", locations := ["Boise"] }

/-- A running job with a live handle and a working execution thread. -/
def sRunning : MState :=
  { status := .running, handle := true, phase := .working,
    startedAt := true, completedAt := false, hasError := false }

/-- The state just after a cancel hit `sRunning`: Cancelled, handle gone,
thread still working. -/
def sCancelledMid : MState :=
  { status := .cancelled, handle := false, phase := .working,
    startedAt := true, completedAt := true, hasError := false }

/-- The state just after the start route accepted `initMState`. -/
def sSpawned : MState :=
  { status := .pending, handle := true, phase := .spawned,
    startedAt := false, completedAt := false, hasError := false }

/-! ## Helper lemmas: trimming -/

theorem dropWhile_head_not (p : Char → Bool) :
    ∀ (l : List Char) (c : Char), (l.dropWhile p).head? = some c → p c = false := by
  intro l
  induction l with
  | nil => intro c h; simp at h
  | cons a t ih =>
    intro c h
    by_cases ha : p a = true
    · rw [List.dropWhile_cons_of_pos ha] at h
      exact ih c h
    · rw [List.dropWhile_cons_of_neg ha] at h
      simp at h
      subst h
      exact Bool.eq_false_iff.mpr ha

theorem dropWhile_eq_self_of_head (p : Char → Bool) (l : List Char)
    (h : ∀ c, l.head? = some c → p c = false) : l.dropWhile p = l := by
  cases l with
  | nil => rfl
  | cons a t =>
    apply List.dropWhile_cons_of_neg
    simp [h a rfl]

theorem trimL_head_not_ws (s : List Char) :
    ∀ c, (trimL s).head? = some c → isWS c = false := by
  intro c h
  unfold trimL at h
  rw [List.head?_reverse] at h
  rcases List.dropWhile_suffix (l := (s.dropWhile isWS).reverse) (p := isWS) with ⟨u, hu⟩
  have hne : (s.dropWhile isWS).reverse.dropWhile isWS ≠ [] := by
    intro he
    rw [he] at h
    simp at h
  have h2 : (u ++ (s.dropWhile isWS).reverse.dropWhile isWS).getLast? =
      ((s.dropWhile isWS).reverse.dropWhile isWS).getLast? :=
    List.getLast?_append_of_ne_nil u hne
  rw [hu] at h2
  rw [← h2, List.getLast?_reverse] at h
  exact dropWhile_head_not isWS s c h

theorem trimL_last_not_ws (s : List Char) :
    ∀ c, (trimL s).getLast? = some c → isWS c = false := by
  intro c h
  unfold trimL at h
  rw [List.getLast?_reverse] at h
  exact dropWhile_head_not isWS _ c h

theorem trimL_eq_self (s : List Char)
    (hh : ∀ c, s.head? = some c → isWS c = false)
    (hl : ∀ c, s.getLast? = some c → isWS c = false) : trimL s = s := by
  unfold trimL
  rw [dropWhile_eq_self_of_head isWS s hh]
  rw [dropWhile_eq_self_of_head isWS s.reverse
    (fun c hc => hl c (by rw [← List.head?_reverse]; exact hc))]
  exact List.reverse_reverse s

theorem trimL_idem (s : List Char) : trimL (trimL s) = trimL s :=
  trimL_eq_self (trimL s) (trimL_head_not_ws s) (trimL_last_not_ws s)

/-! ## Helper lemmas: filtering digits through the trim -/

theorem ws_not_digit : ∀ c : Char, isWS c = true → Char.isDigit c = false := by
  intro c h
  simp only [isWS, Char.isWhitespace, Bool.or_eq_true, decide_eq_true_eq] at h
  rcases h with ((h | h) | h) | h <;> subst h <;> rfl

theorem filter_dropWhile_disj (p q : Char → Bool) (hd : ∀ c, q c = true → p c = false) :
    ∀ l : List Char, (l.dropWhile q).filter p = l.filter p := by
  intro l
  induction l with
  | nil => rfl
  | cons c rest ih =>
    by_cases h : q c = true
    · rw [List.dropWhile_cons_of_pos h, ih, List.filter_cons_of_neg]
      simp [hd c h]
    · rw [List.dropWhile_cons_of_neg h]

theorem filter_trimL (p : Char → Bool) (hd : ∀ c, isWS c = true → p c = false)
    (s : List Char) : (trimL s).filter p = s.filter p := by
  unfold trimL
  rw [List.filter_reverse, filter_dropWhile_disj p isWS hd, List.filter_reverse,
    List.reverse_reverse, filter_dropWhile_disj p isWS hd]

/-! ## Helper lemmas: the phone formatter -/

theorem fmtPhone_digits (d : List Char) (hall : ∀ c ∈ d, Char.isDigit c = true) :
    (fmtPhone d).filter Char.isDigit = d := by
  unfold fmtPhone
  have h1 : (d.take 3).filter Char.isDigit = d.take 3 :=
    List.filter_eq_self.mpr (fun c hc => hall c (List.mem_of_mem_take hc))
  have h2 : ((d.drop 3).take 3).filter Char.isDigit = (d.drop 3).take 3 :=
    List.filter_eq_self.mpr
      (fun c hc => hall c (List.mem_of_mem_drop (List.mem_of_mem_take hc)))
  have h3 : (d.drop 6).filter Char.isDigit = d.drop 6 :=
    List.filter_eq_self.mpr (fun c hc => hall c (List.mem_of_mem_drop hc))
  have c1 : ('(').isDigit = false := rfl
  have c2 : (')').isDigit = false := rfl
  have c3 : (' ').isDigit = false := rfl
  have c4 : ('-').isDigit = false := rfl
  simp only [List.filter_cons, List.filter_append, c1, c2, c3, c4, Bool.false_eq_true,
    if_false, h1, h2, h3]
  have h6 : List.drop 3 (List.drop 3 d) = List.drop 6 d := by
    rw [List.drop_drop]
  rw [← h6, List.take_append_drop, List.take_append_drop]

theorem validatePhone_spec (s : List Char) :
    validatePhoneL s =
      (if (s.filter Char.isDigit).length = 10 then fmtPhone (s.filter Char.isDigit)
       else if (s.filter Char.isDigit).length = 11 ∧
           (s.filter Char.isDigit).head? = some '1' then
         fmtPhone ((s.filter Char.isDigit).drop 1)
       else []) := by
  unfold validatePhoneL
  by_cases hs : s = []
  · subst hs
    simp
  · rw [if_neg hs, filter_trimL Char.isDigit ws_not_digit]

theorem validatePhone_idem (s : List Char) :
    validatePhoneL (validatePhoneL s) = validatePhoneL s := by
  have hshape : validatePhoneL s = [] ∨
      ∃ d : List Char, validatePhoneL s = fmtPhone d ∧ d.length = 10 ∧
        ∀ c ∈ d, Char.isDigit c = true := by
    rw [validatePhone_spec s]
    by_cases h10 : (s.filter Char.isDigit).length = 10
    · right
      refine ⟨s.filter Char.isDigit, by rw [if_pos h10], h10, ?_⟩
      intro c hc
      exact List.of_mem_filter hc
    · rw [if_neg h10]
      by_cases h11 : (s.filter Char.isDigit).length = 11 ∧
          (s.filter Char.isDigit).head? = some '1'
      · right
        refine ⟨(s.filter Char.isDigit).drop 1, by rw [if_pos h11], ?_, ?_⟩
        · rw [List.length_drop, h11.1]
        · intro c hc
          exact List.of_mem_filter (List.mem_of_mem_drop hc)
      · rw [if_neg h11]
        left
        rfl
  rcases hshape with h | ⟨d, hd, hlen, hall⟩
  · rw [h]
    rfl
  · rw [hd, validatePhone_spec (fmtPhone d), fmtPhone_digits d hall, if_pos hlen]

/-! ## Helper lemmas: suffixes by position -/

theorem lastN_append (a b : List Char) : lastN b.length (a ++ b) = b := by
  unfold lastN
  rw [List.length_append, Nat.add_sub_cancel]
  exact List.drop_left a b

theorem lastN_lastN (k m : Nat) (h : k ≤ m) (l : List Char) :
    lastN k (lastN m l) = lastN k l := by
  unfold lastN
  rw [List.length_drop, List.drop_drop]
  congr 1
  omega

theorem lastN_small_of_ends (l b : List Char) (k : Nat) (hk : k ≤ b.length)
    (hb : lastN b.length l = b) : lastN k l = lastN k b :=
  (lastN_lastN k b.length hk l).symm.trans (congrArg (lastN k) hb)

theorem lastN_confl (l X b : List Char)
    (hX : lastN X.length l = X) (hb : lastN b.length l = b)
    (hne : lastN (min X.length b.length) X ≠ lastN (min X.length b.length) b) : False := by
  apply hne
  have h1 := lastN_small_of_ends l X (min X.length b.length) (Nat.min_le_left _ _) hX
  have h2 := lastN_small_of_ends l b (min X.length b.length) (Nat.min_le_right _ _) hb
  rw [← h1, ← h2]

/-! ## Helper lemmas: the suffix substitution -/

theorem subSuffix_cases (pat repl s : List Char) :
    subSuffix pat repl s = s ∨
    ∃ i, i ≤ s.length ∧ prevNonWord s i = true ∧
      subSuffix pat repl s = s.take i ++ repl := by
  unfold subSuffix
  by_cases h1 : lastN (pat.length + 1) (lowerL s) = pat ++ ['.'] ∧
      prevNonWord s (s.length - (pat.length + 1)) = true
  · right
    exact ⟨s.length - (pat.length + 1), by omega, h1.2, by rw [if_pos h1]⟩
  · rw [if_neg h1]
    by_cases h2 : lastN pat.length (lowerL s) = pat ∧
        prevNonWord s (s.length - pat.length) = true
    · right
      exact ⟨s.length - pat.length, by omega, h2.2, by rw [if_pos h2]⟩
    · left
      rw [if_neg h2]

theorem subSuffix_no_fire (pat repl s : List Char)
    (h1 : lastN (pat.length + 1) (lowerL s) ≠ pat ++ ['.'])
    (h2 : lastN pat.length (lowerL s) ≠ pat) :
    subSuffix pat repl s = s := by
  unfold subSuffix
  rw [if_neg (fun hc => h1 hc.1), if_neg (fun hc => h2 hc.1)]

theorem lowerL_append (a b : List Char) : lowerL (a ++ b) = lowerL a ++ lowerL b :=
  List.map_append Char.toLower a b

theorem ends_of_append_repl (x repl pat : List Char) (hlow : lowerL repl = pat) :
    lastN pat.length (lowerL (x ++ repl)) = pat := by
  rw [lowerL_append, ← hlow]
  exact lastN_append (lowerL x) (lowerL repl)

theorem subSuffix_skip_of_ends (Y rY X s : List Char)
    (hend : lastN X.length (lowerL s) = X)
    (c1 : lastN (min X.length (Y ++ ['.']).length) X ≠
      lastN (min X.length (Y ++ ['.']).length) (Y ++ ['.']))
    (c2 : lastN (min X.length Y.length) X ≠ lastN (min X.length Y.length) Y) :
    subSuffix Y rY s = s := by
  apply subSuffix_no_fire
  · intro hc
    have hlen : (Y ++ ['.']).length = Y.length + 1 := by simp
    exact lastN_confl (lowerL s) X (Y ++ ['.']) hend (by rw [hlen]; exact hc) c1
  · intro hc
    exact lastN_confl (lowerL s) X Y hend hc c2

theorem length_take_of_le (t : List Char) (i : Nat) (hi : i ≤ t.length) :
    (t.take i).length = i := by
  rw [List.length_take]
  omega

theorem prevNonWord_take_append (t repl : List Char) (i : Nat) (hi : i ≤ t.length) :
    prevNonWord (t.take i ++ repl) i = prevNonWord t i := by
  cases i with
  | zero => rfl
  | succ j =>
    show (!((t.take (j + 1) ++ repl).get? j).elim false isWordChar) =
      (!(t.get? j).elim false isWordChar)
    rw [List.get?_append (by rw [length_take_of_le t (j + 1) hi]; omega),
      List.get?_take (by omega)]

theorem subSuffix_fixed (pat repl : List Char) (hne : pat ≠ [])
    (hlow : lowerL repl = pat) (hlast : lastN 1 pat ≠ ['.'])
    (a : List Char) (hb : prevNonWord (a ++ repl) a.length = true) :
    subSuffix pat repl (a ++ repl) = a ++ repl := by
  have hlen : repl.length = pat.length := by
    rw [← hlow]
    simp [lowerL]
  have hend : lastN pat.length (lowerL (a ++ repl)) = pat :=
    ends_of_append_repl a repl pat hlow
  have hp1 : 1 ≤ pat.length := by
    cases pat with
    | nil => exact absurd rfl hne
    | cons c t => simp
  unfold subSuffix
  rw [if_neg ?hc1]
  case hc1 =>
    intro hc
    have hdot : lastN 1 (lowerL (a ++ repl)) = ['.'] := by
      have h := lastN_small_of_ends (lowerL (a ++ repl)) (pat ++ ['.']) 1
        (by simp) (by rw [show (pat ++ ['.']).length = pat.length + 1 from by simp]; exact hc.1)
      rw [h]
      have h2 := lastN_append pat ['.']
      simpa using h2
    have hlet : lastN 1 (lowerL (a ++ repl)) = lastN 1 pat :=
      lastN_small_of_ends (lowerL (a ++ repl)) pat 1 hp1 hend
    rw [hdot] at hlet
    exact hlast hlet.symm
  rw [if_pos ?hc2]
  case hc2 =>
    refine ⟨hend, ?_⟩
    have hidx : (a ++ repl).length - pat.length = a.length := by
      rw [List.length_append, hlen]
      omega
    rw [hidx]
    exact hb
  rw [show (a ++ repl).length - pat.length = a.length from by
    rw [List.length_append, hlen]; omega]
  rw [List.take_left a repl]

/-! ## Helper lemmas: the artifact tests survive a suffix replacement -/

theorem quoted_append (a repl : List Char) (hne : repl ≠ [])
    (hlast : repl.getLast? ≠ some '"') : isQuotedArtifact (a ++ repl) = false := by
  rw [Bool.eq_false_iff]
  intro hT
  unfold isQuotedArtifact at hT
  simp only [Bool.and_eq_true, decide_eq_true_eq] at hT
  exact hlast (by rw [← List.getLast?_append_of_ne_nil a hne]; exact hT.1.2)

theorem numTail_append (p tail repl : List Char) (h : numTail (p ++ tail) = false)
    (hrepl : numTail repl = false) : numTail (p ++ repl) = false := by
  induction p with
  | nil => exact hrepl
  | cons d p ih =>
    simp only [List.cons_append, numTail] at h ⊢
    by_cases hd : d.isDigit = true
    · rw [if_pos hd] at h ⊢
      exact ih h
    · rw [if_neg hd] at h ⊢
      exact h

theorem numbered_append (p tail repl : List Char)
    (h : isNumberedArtifact (p ++ tail) = false)
    (hrepl0 : isNumberedArtifact repl = false) (hrepl : numTail repl = false) :
    isNumberedArtifact (p ++ repl) = false := by
  cases p with
  | nil => exact hrepl0
  | cons c p =>
    simp only [List.cons_append, isNumberedArtifact, Bool.and_eq_false_iff] at h ⊢
    rcases h with h | h
    · left
      exact h
    · right
      exact numTail_append p tail repl h hrepl

theorem beq_length_ne {x y : List Char} (h : x.length ≠ y.length) :
    decide (x = y) = false := by
  simp only [decide_eq_false_iff_not]
  intro he
  exact h (congrArg List.length he)

theorem gmaps_append (t repl : List Char) (i : Nat) (hi : i ≤ t.length)
    (ht : isGMapsArtifact t = false)
    (hlen4 : repl.length ≤ 4) (hne : repl ≠ [])
    (hhead : ∀ c, repl.head? = some c →
      Char.toLower c = 'l' ∨ Char.toLower c = 'i' ∨ Char.toLower c = 'c') :
    isGMapsArtifact (t.take i ++ repl) = false := by
  have hzlen : (t.take i ++ repl).length = i + repl.length := by
    rw [List.length_append, length_take_of_le t i hi]
  by_cases hsmall : (t.take i ++ repl).length < 11
  · unfold isGMapsArtifact
    apply beq_length_ne
    rw [List.take_all_of_le (by simpa [gmapsL] using Nat.le_of_lt hsmall)]
    simp only [lowerL, List.length_map]
    intro he
    rw [he] at hsmall
    simp [gmapsL] at hsmall
  · by_cases hbig : 11 ≤ i
    · unfold isGMapsArtifact
      have h1 : (t.take i ++ repl).take gmapsL.length = t.take gmapsL.length := by
        rw [List.take_append_eq_append_take]
        rw [show gmapsL.length - (t.take i).length = 0 from by
          rw [length_take_of_le t i hi]; simp [gmapsL]; omega]
        rw [List.take_zero, List.append_nil, List.take_take]
        congr 1
        have h2 : gmapsL.length ≤ i := by simp [gmapsL]; omega
        exact Nat.min_eq_left h2
      rw [h1]
      exact ht
    · push_neg at hsmall hbig
      rw [Bool.eq_false_iff]
      intro hT
      unfold isGMapsArtifact at hT
      simp only [decide_eq_true_eq] at hT
      have hi7 : 7 ≤ i := by
        have h3 : 11 ≤ i + repl.length := by rw [← hzlen]; simpa [gmapsL] using hsmall
        omega
      have hgeti : (lowerL ((t.take i ++ repl).take gmapsL.length)).get? i = gmapsL.get? i :=
        congrArg (fun l => l.get? i) hT
      rcases hne2 : repl with _ | ⟨c0, rrest⟩
      · exact hne hne2
      have hz : (t.take i ++ repl).get? i = some c0 := by
        rw [List.get?_append_right (by rw [length_take_of_le t i hi])]
        rw [length_take_of_le t i hi, Nat.sub_self, hne2]
        rfl
      rw [lowerL, List.get?_map, List.get?_take (by simp [gmapsL]; omega), hz] at hgeti
      have hc0 := hhead c0 (by rw [hne2]; rfl)
      simp only [Option.map_some'] at hgeti
      interval_cases i <;>
        (rcases hc0 with hc | hc | hc <;> rw [hc] at hgeti <;> simp [gmapsL] at hgeti)

/-! ## Helper lemmas: the substitution chain of the name cleaner -/

theorem head?_take_of_ne (t : List Char) (i : Nat) (h : t.take i ≠ []) :
    (t.take i).head? = t.head? := by
  cases t with
  | nil => simp at h
  | cons a t2 =>
    cases i with
    | zero => simp at h
    | succ j => rfl

theorem fired_trim (t repl : List Char) (i : Nat)
    (hh : ∀ c, t.head? = some c → isWS c = false)
    (hrh : ∀ c, repl.head? = some c → isWS c = false)
    (hrl : ∀ c, repl.getLast? = some c → isWS c = false)
    (hne : repl ≠ []) :
    trimL (t.take i ++ repl) = t.take i ++ repl := by
  apply trimL_eq_self
  · intro c hc
    by_cases h0 : t.take i = []
    · rw [h0, List.nil_append] at hc
      exact hrh c hc
    · rw [List.head?_append_of_ne_nil _ h0, head?_take_of_ne t i h0] at hc
      exact hh c hc
  · intro c hc
    rw [List.getLast?_append_of_ne_nil _ hne] at hc
    exact hrl c hc

theorem chainSub_cases (t : List Char) :
    chainSub t = t ∨
    (∃ i, i ≤ t.length ∧ prevNonWord t i = true ∧ chainSub t = t.take i ++ llcRepl) ∨
    (∃ i, i ≤ t.length ∧ prevNonWord t i = true ∧ chainSub t = t.take i ++ incRepl) ∨
    (∃ i, i ≤ t.length ∧ prevNonWord t i = true ∧ chainSub t = t.take i ++ corpRepl) := by
  unfold chainSub
  rcases subSuffix_cases llcPat llcRepl t with h1 | ⟨i, hi, hb, h1⟩
  · rw [h1]
    rcases subSuffix_cases incPat incRepl t with h2 | ⟨i, hi, hb, h2⟩
    · rw [h2]
      rcases subSuffix_cases corpPat corpRepl t with h3 | ⟨i, hi, hb, h3⟩
      · exact Or.inl h3
      · exact Or.inr (Or.inr (Or.inr ⟨i, hi, hb, h3⟩))
    · rw [h2]
      have hend : lastN incPat.length (lowerL (t.take i ++ incRepl)) = incPat :=
        ends_of_append_repl _ _ _ (by decide)
      rw [subSuffix_skip_of_ends corpPat corpRepl incPat _ hend (by decide) (by decide)]
      exact Or.inr (Or.inr (Or.inl ⟨i, hi, hb, rfl⟩))
  · rw [h1]
    have hend : lastN llcPat.length (lowerL (t.take i ++ llcRepl)) = llcPat :=
      ends_of_append_repl _ _ _ (by decide)
    rw [subSuffix_skip_of_ends incPat incRepl llcPat _ hend (by decide) (by decide),
      subSuffix_skip_of_ends corpPat corpRepl llcPat _ hend (by decide) (by decide)]
    exact Or.inr (Or.inl ⟨i, hi, hb, rfl⟩)

theorem chainSub_fixed_llc (x : List Char)
    (hb : prevNonWord (x ++ llcRepl) x.length = true) :
    chainSub (x ++ llcRepl) = x ++ llcRepl := by
  unfold chainSub
  have h1 : subSuffix llcPat llcRepl (x ++ llcRepl) = x ++ llcRepl :=
    subSuffix_fixed llcPat llcRepl (by decide) (by decide) (by decide) x hb
  have hend : lastN llcPat.length (lowerL (x ++ llcRepl)) = llcPat :=
    ends_of_append_repl _ _ _ (by decide)
  rw [h1, subSuffix_skip_of_ends incPat incRepl llcPat _ hend (by decide) (by decide),
    subSuffix_skip_of_ends corpPat corpRepl llcPat _ hend (by decide) (by decide)]

theorem chainSub_fixed_inc (x : List Char)
    (hb : prevNonWord (x ++ incRepl) x.length = true) :
    chainSub (x ++ incRepl) = x ++ incRepl := by
  unfold chainSub
  have hend : lastN incPat.length (lowerL (x ++ incRepl)) = incPat :=
    ends_of_append_repl _ _ _ (by decide)
  rw [subSuffix_skip_of_ends llcPat llcRepl incPat _ hend (by decide) (by decide)]
  rw [subSuffix_fixed incPat incRepl (by decide) (by decide) (by decide) x hb]
  rw [subSuffix_skip_of_ends corpPat corpRepl incPat _ hend (by decide) (by decide)]

theorem chainSub_fixed_corp (x : List Char)
    (hb : prevNonWord (x ++ corpRepl) x.length = true) :
    chainSub (x ++ corpRepl) = x ++ corpRepl := by
  unfold chainSub
  have hend : lastN corpPat.length (lowerL (x ++ corpRepl)) = corpPat :=
    ends_of_append_repl _ _ _ (by decide)
  rw [subSuffix_skip_of_ends llcPat llcRepl corpPat _ hend (by decide) (by decide)]
  rw [subSuffix_skip_of_ends incPat incRepl corpPat _ hend (by decide) (by decide)]
  rw [subSuffix_fixed corpPat corpRepl (by decide) (by decide) (by decide) x hb]

/-! ## Helper lemmas: deduplication -/

theorem dedupByKey_sublist : ∀ (l : List B) (seen : List (String × String)),
    (dedupByKey l seen).Sublist l := by
  intro l
  induction l with
  | nil => intro seen; simp [dedupByKey]
  | cons r rs ih =>
    intro seen
    simp only [dedupByKey]
    by_cases h : dkey r ∈ seen
    · rw [if_pos h]
      exact (ih seen).trans (List.sublist_cons_self r rs)
    · rw [if_neg h]
      exact (ih (dkey r :: seen)).cons₂ r

theorem dedupByKey_mem_notin_seen : ∀ (l : List B) (seen : List (String × String)) (r : B),
    r ∈ dedupByKey l seen → dkey r ∉ seen := by
  intro l
  induction l with
  | nil => intro seen r h; simp [dedupByKey] at h
  | cons a rs ih =>
    intro seen r h
    simp only [dedupByKey] at h
    by_cases hm : dkey a ∈ seen
    · rw [if_pos hm] at h
      exact ih seen r h
    · rw [if_neg hm] at h
      rcases List.mem_cons.mp h with heq | h2
      · subst heq
        assumption
      · intro hc
        exact ih _ r h2 (List.mem_cons_of_mem _ hc)

theorem dedupByKey_pairwise : ∀ (l : List B) (seen : List (String × String)),
    (dedupByKey l seen).Pairwise (fun a b => dkey a ≠ dkey b) := by
  intro l
  induction l with
  | nil => intro seen; simp [dedupByKey]
  | cons a rs ih =>
    intro seen
    simp only [dedupByKey]
    by_cases hm : dkey a ∈ seen
    · rw [if_pos hm]
      exact ih seen
    · rw [if_neg hm]
      refine List.Pairwise.cons ?_ (ih _)
      intro b hb hc
      exact dedupByKey_mem_notin_seen _ _ _ hb (hc ▸ List.mem_cons_self _ _)

theorem dedupByKey_first_mem : ∀ (pre : List B) (r : B) (post : List B)
    (seen : List (String × String)),
    dkey r ∉ seen → (∀ x ∈ pre, dkey x ≠ dkey r) →
    r ∈ dedupByKey (pre ++ r :: post) seen := by
  intro pre
  induction pre with
  | nil =>
    intro r post seen hs _
    simp only [List.nil_append, dedupByKey]
    rw [if_neg hs]
    exact List.mem_cons_self _ _
  | cons a pre ih =>
    intro r post seen hs hpre
    simp only [List.cons_append, dedupByKey]
    by_cases hm : dkey a ∈ seen
    · rw [if_pos hm]
      exact ih r post seen hs (fun x hx => hpre x (List.mem_cons_of_mem _ hx))
    · rw [if_neg hm]
      refine List.mem_cons_of_mem _
        (ih r post _ ?_ (fun x hx => hpre x (List.mem_cons_of_mem _ hx)))
      intro hc
      rcases List.mem_cons.mp hc with h | h
      · exact hpre a (List.mem_cons_self _ _) h.symm
      · exact hs h

theorem dedupByKey_skip_dup : ∀ (l : List B) (rest : List B) (r2 : B)
    (seen : List (String × String)),
    ((∃ x ∈ l, dkey x = dkey r2) ∨ dkey r2 ∈ seen) →
    dedupByKey (l ++ r2 :: rest) seen = dedupByKey (l ++ rest) seen := by
  intro l
  induction l with
  | nil =>
    intro rest r2 seen h
    rcases h with ⟨x, hx, _⟩ | h
    · simp at hx
    · simp only [List.nil_append, dedupByKey]
      rw [if_pos h]
  | cons a l ih =>
    intro rest r2 seen h
    simp only [List.cons_append, dedupByKey]
    by_cases hm : dkey a ∈ seen
    · rw [if_pos hm, if_pos hm]
      refine ih rest r2 seen ?_
      rcases h with ⟨x, hx, hk⟩ | h
      · rcases List.mem_cons.mp hx with heq | h2
        · right
          subst heq
          exact hk ▸ hm
        · left
          exact ⟨x, h2, hk⟩
      · right
        exact h
    · rw [if_neg hm, if_neg hm]
      simp only [List.append_eq]
      refine congrArg (List.cons a) (ih rest r2 _ ?_)
      rcases h with ⟨x, hx, hk⟩ | h
      · rcases List.mem_cons.mp hx with heq | h2
        · right
          subst heq
          exact hk ▸ List.mem_cons_self _ _
        · left
          exact ⟨x, h2, hk⟩
      · right
        exact List.mem_cons_of_mem _ h

/-! ## The business-name cleaner is idempotent -/

theorem cleanNameL_idem (s : List Char) : cleanNameL (cleanNameL s) = cleanNameL s := by
  by_cases h0 : cleanNameL s = []
  · rw [h0]
    rfl
  have hs : s ≠ [] := fun h => h0 (by rw [h]; rfl)
  by_cases hartP : (isQuotedArtifact (trimL s) || isNumberedArtifact (trimL s) ||
      isGMapsArtifact (trimL s)) = true
  · exact absurd (by unfold cleanNameL; rw [if_neg hs, if_pos hartP]) h0
  have hartT : (isQuotedArtifact (trimL s) || isNumberedArtifact (trimL s) ||
      isGMapsArtifact (trimL s)) = false := Bool.eq_false_iff.mpr hartP
  have hart3 : isQuotedArtifact (trimL s) = false ∧ isNumberedArtifact (trimL s) = false ∧
      isGMapsArtifact (trimL s) = false := by
    have h4 := hartT
    simp only [Bool.or_eq_false_iff] at h4
    exact ⟨h4.1.1, h4.1.2, h4.2⟩
  obtain ⟨hq, hn, hg⟩ := hart3
  have hz : cleanNameL s = cleanNameCore (trimL s) := by
    unfold cleanNameL
    rw [if_neg hs, if_neg (by rw [hartT]; exact Bool.false_ne_true)]
  have hh := trimL_head_not_ws s
  have hl := trimL_last_not_ws s
  rcases chainSub_cases (trimL s) with hA | ⟨i, hi, hb, hB⟩ | ⟨i, hi, hb, hB⟩ |
      ⟨i, hi, hb, hB⟩
  · -- no substitution fired
    have hz2 : cleanNameL s = trimL s := by
      rw [hz]
      unfold cleanNameCore
      rw [hA, trimL_idem]
    have htne : trimL s ≠ [] := by
      intro h
      rw [h] at hz2
      exact h0 hz2
    rw [hz2]
    unfold cleanNameL
    rw [if_neg htne, trimL_idem]
    rw [if_neg (by rw [hartT]; exact Bool.false_ne_true)]
    unfold cleanNameCore
    rw [hA, trimL_idem]
  · -- LLC fired at i
    have htrim : trimL ((trimL s).take i ++ llcRepl) = (trimL s).take i ++ llcRepl :=
      fired_trim (trimL s) llcRepl i hh (by decide) (by decide) (by decide)
    have hz2 : cleanNameL s = (trimL s).take i ++ llcRepl := by
      rw [hz]
      unfold cleanNameCore
      rw [hB, htrim]
    have hzne : (trimL s).take i ++ llcRepl ≠ [] := by simp [llcRepl]
    have hq2 : isQuotedArtifact ((trimL s).take i ++ llcRepl) = false :=
      quoted_append _ _ (by decide) (by decide)
    have hn2 : isNumberedArtifact ((trimL s).take i ++ llcRepl) = false := by
      apply numbered_append ((trimL s).take i) ((trimL s).drop i) llcRepl ?_ (by decide)
        (by decide)
      rw [List.take_append_drop]
      exact hn
    have hg2 : isGMapsArtifact ((trimL s).take i ++ llcRepl) = false :=
      gmaps_append (trimL s) llcRepl i hi hg (by decide) (by decide) (by decide)
    have hb2 : prevNonWord ((trimL s).take i ++ llcRepl) ((trimL s).take i).length = true := by
      rw [length_take_of_le (trimL s) i hi, prevNonWord_take_append (trimL s) llcRepl i hi]
      exact hb
    rw [hz2]
    unfold cleanNameL
    rw [if_neg hzne, htrim]
    rw [if_neg (by rw [hq2, hn2, hg2]; exact Bool.false_ne_true)]
    unfold cleanNameCore
    rw [chainSub_fixed_llc ((trimL s).take i) hb2, htrim]
  · -- Inc fired at i
    have htrim : trimL ((trimL s).take i ++ incRepl) = (trimL s).take i ++ incRepl :=
      fired_trim (trimL s) incRepl i hh (by decide) (by decide) (by decide)
    have hz2 : cleanNameL s = (trimL s).take i ++ incRepl := by
      rw [hz]
      unfold cleanNameCore
      rw [hB, htrim]
    have hzne : (trimL s).take i ++ incRepl ≠ [] := by simp [incRepl]
    have hq2 : isQuotedArtifact ((trimL s).take i ++ incRepl) = false :=
      quoted_append _ _ (by decide) (by decide)
    have hn2 : isNumberedArtifact ((trimL s).take i ++ incRepl) = false := by
      apply numbered_append ((trimL s).take i) ((trimL s).drop i) incRepl ?_ (by decide)
        (by decide)
      rw [List.take_append_drop]
      exact hn
    have hg2 : isGMapsArtifact ((trimL s).take i ++ incRepl) = false :=
      gmaps_append (trimL s) incRepl i hi hg (by decide) (by decide) (by decide)
    have hb2 : prevNonWord ((trimL s).take i ++ incRepl) ((trimL s).take i).length = true := by
      rw [length_take_of_le (trimL s) i hi, prevNonWord_take_append (trimL s) incRepl i hi]
      exact hb
    rw [hz2]
    unfold cleanNameL
    rw [if_neg hzne, htrim]
    rw [if_neg (by rw [hq2, hn2, hg2]; exact Bool.false_ne_true)]
    unfold cleanNameCore
    rw [chainSub_fixed_inc ((trimL s).take i) hb2, htrim]
  · -- Corp fired at i
    have htrim : trimL ((trimL s).take i ++ corpRepl) = (trimL s).take i ++ corpRepl :=
      fired_trim (trimL s) corpRepl i hh (by decide) (by decide) (by decide)
    have hz2 : cleanNameL s = (trimL s).take i ++ corpRepl := by
      rw [hz]
      unfold cleanNameCore
      rw [hB, htrim]
    have hzne : (trimL s).take i ++ corpRepl ≠ [] := by simp [corpRepl]
    have hq2 : isQuotedArtifact ((trimL s).take i ++ corpRepl) = false :=
      quoted_append _ _ (by decide) (by decide)
    have hn2 : isNumberedArtifact ((trimL s).take i ++ corpRepl) = false := by
      apply numbered_append ((trimL s).take i) ((trimL s).drop i) corpRepl ?_ (by decide)
        (by decide)
      rw [List.take_append_drop]
      exact hn
    have hg2 : isGMapsArtifact ((trimL s).take i ++ corpRepl) = false :=
      gmaps_append (trimL s) corpRepl i hi hg (by decide) (by decide) (by decide)
    have hb2 : prevNonWord ((trimL s).take i ++ corpRepl) ((trimL s).take i).length = true := by
      rw [length_take_of_le (trimL s) i hi, prevNonWord_take_append (trimL s) corpRepl i hi]
      exact hb
    rw [hz2]
    unfold cleanNameL
    rw [if_neg hzne, htrim]
    rw [if_neg (by rw [hq2, hn2, hg2]; exact Bool.false_ne_true)]
    unfold cleanNameCore
    rw [chainSub_fixed_corp ((trimL s).take i) hb2, htrim]

/-! ## Helper lemmas: the quality score formula and bounds -/

theorem quality_eq (r : B) : dataQualityScore r = 100 * specWeightSum r / 100 := by
  unfold dataQualityScore specWeightSum
  norm_num

theorem quality_bounds (r : B) : 0 ≤ dataQualityScore r ∧ dataQualityScore r ≤ 100 := by
  rw [quality_eq]
  have hS : 100 * specWeightSum r / 100 = specWeightSum r := by ring
  rw [hS]
  unfold specWeightSum
  have h1 : (0 : ℚ) ≤ (if r.name ≠ "" then (20 : ℚ) else 0) ∧
      (if r.name ≠ "" then (20 : ℚ) else 0) ≤ 20 := by
    split <;> norm_num
  have h2 : (0 : ℚ) ≤ (if r.phone ≠ "" then (25 : ℚ) else 0) ∧
      (if r.phone ≠ "" then (25 : ℚ) else 0) ≤ 25 := by
    split <;> norm_num
  have h3 : (0 : ℚ) ≤ (if r.address ≠ "" then (15 : ℚ) else 0) ∧
      (if r.address ≠ "" then (15 : ℚ) else 0) ≤ 15 := by
    split <;> norm_num
  have h4 : (0 : ℚ) ≤ (if r.owner_name ≠ "" then (20 : ℚ) else 0) ∧
      (if r.owner_name ≠ "" then (20 : ℚ) else 0) ≤ 20 := by
    split <;> norm_num
  have h5 : (0 : ℚ) ≤
      (if r.website ≠ "" ∧ r.website ≠ "Not found" ∧ r.website ≠ "N/A" then (10 : ℚ)
       else 0) ∧
      (if r.website ≠ "" ∧ r.website ≠ "Not found" ∧ r.website ≠ "N/A" then (10 : ℚ)
       else 0) ≤ 10 := by
    split <;> norm_num
  have h6 : (0 : ℚ) ≤ (if 0 < r.review_count then (5 : ℚ) else 0) ∧
      (if 0 < r.review_count then (5 : ℚ) else 0) ≤ 5 := by
    split <;> norm_num
  have h7 : (0 : ℚ) ≤ (if r.additional_contact ≠ "" then (5 : ℚ) else 0) ∧
      (if r.additional_contact ≠ "" then (5 : ℚ) else 0) ≤ 5 := by
    split <;> norm_num
  constructor
  · linarith [h1.1, h2.1, h3.1, h4.1, h5.1, h6.1, h7.1]
  · linarith [h1.2, h2.2, h3.2, h4.2, h5.2, h6.2, h7.2]

/-! ## The claims -/

/-- C1 (counterexample): the lifecycle claim is false on the code. A step of
an enabled event can move a job out of a terminal state: after the trace
start, execBegin, cancel the job is Cancelled (terminal), yet the still
running execution body finishes with execDone and overwrites the status
with Completed. -/
theorem C1_counterexample :
    ¬ (∀ (s : MState) (e : Ev) (s2 : MState), stepJob s e = some s2 →
        isTerminal s.status = true → s2.status = s.status) ∧
    (runJob initMState [.start, .execBegin, .cancel]).map MState.status =
      some .cancelled ∧
    (runJob initMState [.start, .execBegin, .cancel, .execDone]).map MState.status =
      some .completed := by
  refine ⟨fun h => ?_, by decide, by decide⟩
  have h2 := h
    { status := .cancelled, handle := false, phase := .working,
      startedAt := true, completedAt := true, hasError := false } .execDone
    { status := .completed, handle := false, phase := .idle,
      startedAt := true, completedAt := true, hasError := false } (by decide) (by decide)
  exact absurd h2 (by decide)

/-- C1 (amended): cancel succeeds exactly when the status is Pending or
Running and then sets Cancelled with a completion timestamp and drops the
handle; the start route is accepted only from Pending with no live handle;
but the execution body is unconditional, so after a cancel the finished
body overwrites the terminal Cancelled status (trace conjuncts: the body
begun before a cancel ends Completed, and a body spawned before a cancel
sets Running from Cancelled). -/
theorem C1_amended_lifecycle :
    (∀ s s2 : MState, stepJob s .cancel = some s2 →
      (s.status = .pending ∨ s.status = .running) ∧ s2.status = .cancelled ∧
      s2.completedAt = true ∧ s2.handle = false) ∧
    (∀ s s2 : MState, stepJob s .start = some s2 →
      s.status = .pending ∧ s.handle = false) ∧
    (∀ s : MState, (s.status = .pending ∨ s.status = .running) →
      ∃ s2, stepJob s .cancel = some s2) ∧
    (runJob initMState [.start, .execBegin, .cancel, .execDone]).map MState.status =
      some .completed ∧
    (runJob initMState [.start, .cancel, .execBegin]).map MState.status =
      some .running := by
  refine ⟨?_, ?_, ?_, by decide, by decide⟩
  · intro s s2 h
    simp only [stepJob] at h
    split at h
    · cases h
      exact ⟨by assumption, rfl, rfl, rfl⟩
    · exact absurd h (by simp)
  · intro s s2 h
    simp only [stepJob] at h
    split at h
    · cases h
      exact (by assumption)
    · exact absurd h (by simp)
  · intro s hc
    exact ⟨{ s with status := .cancelled, completedAt := true, handle := false },
      by simp only [stepJob]; rw [if_pos hc]⟩

/-- C1 (witness): the amended theorem applied to the initial Pending state
and to a concrete Running state being cancelled. -/
theorem C1_amended_lifecycle_witness :
    ((sRunning.status = .pending ∨ sRunning.status = .running) ∧
      sCancelledMid.status = .cancelled ∧ sCancelledMid.completedAt = true ∧
      sCancelledMid.handle = false) ∧
    (initMState.status = .pending ∧ initMState.handle = false) ∧
    (∃ s2, stepJob initMState .cancel = some s2) :=
  ⟨C1_amended_lifecycle.1 sRunning sCancelledMid (by decide),
    C1_amended_lifecycle.2.1 initMState sSpawned (by decide),
    C1_amended_lifecycle.2.2.1 initMState (Or.inl rfl)⟩

/-- C2: for a job with one location whose extractor call returns the empty
batch, the execution body does NOT complete: `clean_and_validate_data`
returns early without assigning `processed_data`, `filter_by_criteria`
raises, and the job ends Failed with that error; the exporter is never
invoked. This contradicts the claim (Completed, counts zero, exporter
invoked on the empty set), so the claim describes intended behaviour the
code does not implement. -/
theorem C2_empty_extraction_fails : ∀ (env : Env) (job : Job) (loc : String),
    job.locations = [loc] → env.extract loc = .ok [] →
    (executeJob env job).status = .failed ∧
    (executeJob env job).errorMessage =
      some "No processed data available. Run clean_and_validate_data() first." ∧
    (executeJob env job).exportedWith = none ∧
    (executeJob env job).store = [] ∧
    (executeJob env job).totalFound = 0 ∧ (executeJob env job).totalMatching = 0 := by
  intro env job loc h1 h2
  unfold executeJob
  rw [h1]
  unfold extractAll
  rw [h2]
  simp [extractAll, cleanAndValidateData, filterByCriteria]

/-- C2 (witness): the failing input evaluated concretely. -/
theorem C2_empty_extraction_fails_witness :
    (executeJob envEmpty jobOneLoc).status = .failed ∧
    (executeJob envEmpty jobOneLoc).errorMessage =
      some "No processed data available. Run clean_and_validate_data() first." ∧
    (executeJob envEmpty jobOneLoc).exportedWith = none :=
  let h := C2_empty_extraction_fails envEmpty jobOneLoc "Boise" rfl rfl
  ⟨h.1, h.2.1, h.2.2.1⟩

/-- C3 (counterexample): records of a failed run can remain persisted. With
one location yielding one record and a failing exporter, the job ends
Failed but the record committed by the persistence step is still in the
store. -/
theorem C3_counterexample :
    (executeJob envExportFail jobOneLoc).status = .failed ∧
    (executeJob envExportFail jobOneLoc).errorMessage = some "Export failed" ∧
    (executeJob envExportFail jobOneLoc).store = [rawB] ∧
    (executeJob envExportFail jobOneLoc).store ≠ [] := by
  refine ⟨by decide, by decide, by decide, by decide⟩

/-- C3 (amended): any failing step aborts the remaining steps and the job
ends Failed with the error recorded and a completion timestamp; the records
of the run are absent from the store when the extractor fails (nothing was
committed), but when a step after the persistence commit fails (the export,
or the processing on an empty batch) the committed records remain. -/
theorem C3_amended_error_handling : ∀ (env : Env) (job : Job) (e : String),
    (extractAll env job.locations = .error e →
      (executeJob env job).status = .failed ∧
      (executeJob env job).errorMessage = some e ∧
      (executeJob env job).completedAt = true ∧
      (executeJob env job).store = [] ∧
      (executeJob env job).exportedWith = none) ∧
    (∀ bs, extractAll env job.locations = .ok bs → bs ≠ [] →
      env.exportResult = .error e →
      (executeJob env job).status = .failed ∧
      (executeJob env job).errorMessage = some e ∧
      (executeJob env job).completedAt = true ∧
      (executeJob env job).store = bs) ∧
    (extractAll env job.locations = .ok [] →
      (executeJob env job).status = .failed ∧
      (executeJob env job).completedAt = true ∧
      (executeJob env job).store = [] ∧
      (executeJob env job).exportedWith = none) := by
  intro env job e
  refine ⟨?_, ?_, ?_⟩
  · intro h
    unfold executeJob
    rw [h]
    simp
  · intro bs h hne hx
    unfold executeJob
    rw [h]
    simp [cleanAndValidateData, filterByCriteria, if_neg hne, hx]
  · intro h
    unfold executeJob
    rw [h]
    simp [cleanAndValidateData, filterByCriteria]

/-- C3 (witness): the amended theorem applied at a failing extractor, a
failing exporter, and an empty batch. -/
theorem C3_amended_error_handling_witness :
    ((executeJob envExtractFail jobOneLoc).status = .failed ∧
      (executeJob envExtractFail jobOneLoc).store = [] ∧
      (executeJob envExtractFail jobOneLoc).exportedWith = none) ∧
    ((executeJob envExportFail jobOneLoc).status = .failed ∧
      (executeJob envExportFail jobOneLoc).store = [rawB]) ∧
    ((executeJob envEmpty jobOneLoc).status = .failed ∧
      (executeJob envEmpty jobOneLoc).store = []) :=
  let h1 := (C3_amended_error_handling envExtractFail jobOneLoc "Scrape failed").1 rfl
  let h2 := (C3_amended_error_handling envExportFail jobOneLoc "Export failed").2.1
    [rawB] rfl (List.cons_ne_nil _ _) rfl
  let h3 := (C3_amended_error_handling envEmpty jobOneLoc "").2.2 rfl
  ⟨⟨h1.1, h1.2.2.2.1, h1.2.2.2.2⟩, ⟨h2.1, h2.2.2.2⟩, ⟨h3.1, h3.2.2.1⟩⟩

/-- C4: the RankFilter keeps a record if and only if
review_count <= maxReviews, data_quality_score >= minQuality and the phone
is non-empty; its output is a permutation of the mask-filtered input and is
sorted non-decreasing by the lexicographic triple
(priority_score, review_count, name). -/
theorem C4_rank_filter : ∀ (l : List B) (maxReviews : Int) (minQuality : ℚ),
    (∀ r : B, r ∈ rankFilter l maxReviews minQuality ↔
      (r ∈ l ∧ r.review_count ≤ maxReviews ∧ minQuality ≤ r.data_quality_score ∧
        r.phone ≠ "")) ∧
    (rankFilter l maxReviews minQuality).Sorted keyLe ∧
    (rankFilter l maxReviews minQuality).Perm
      (l.filter (criteriaPred maxReviews minQuality)) := by
  intro l maxReviews minQuality
  refine ⟨?_, ?_, ?_⟩
  · intro r
    unfold rankFilter
    rw [List.mem_insertionSort, List.mem_filter]
    simp [criteriaPred, and_assoc]
  · exact List.sorted_insertionSort keyLe _
  · exact List.perm_insertionSort keyLe _

/-- C4 (witness): the characterisation applied to a one-record batch. -/
theorem C4_rank_filter_witness :
    rawB ∈ rankFilter [rawB] 20 0 ∧ (rankFilter [rawB] 20 0).Sorted keyLe :=
  ⟨((C4_rank_filter [rawB] 20 0).1 rawB).mpr
      ⟨by decide, by decide, by decide, by decide⟩,
    (C4_rank_filter [rawB] 20 0).2.1⟩

/-- C5: priority_score equals the spec formula (review_count times ten,
minus 50 for a phone, 30 for an owner, 10 for a real website, and the floor
of twice the rating when positive, clamped at zero, hence non-negative);
data_quality_score equals 100 times the weight sum over the total weight
100, hence lies in [0, 100]; and the scenario-6 record scores priority 0
and quality 65. -/
theorem C5_scoring :
    (∀ r : B,
      priorityScore r =
        max 0 (r.review_count * 10
          - (if r.phone ≠ "" then 50 else 0)
          - (if r.owner_name ≠ "" then 30 else 0)
          - (if r.website ≠ "" ∧ r.website ≠ "Not found" ∧ r.website ≠ "N/A" then 10
             else 0)
          - (if 0 < r.star_rating then Int.floor (r.star_rating * 2) else 0)) ∧
      0 ≤ priorityScore r ∧
      dataQualityScore r = 100 * specWeightSum r / 100 ∧
      0 ≤ dataQualityScore r ∧ dataQualityScore r ≤ 100) ∧
    priorityScore exampleRec = 0 ∧ dataQualityScore exampleRec = 65 := by
  refine ⟨fun r => ⟨?_, le_max_left 0 _, quality_eq r, (quality_bounds r).1,
    (quality_bounds r).2⟩, by decide, ?_⟩
  · unfold priorityScore
    ring_nf
  · simp [dataQualityScore, exampleRec]
    norm_num

/-- C6: phone normalization keeps only the digits and yields the
"(AAA) BBB-CCCC" rendering of them when exactly ten remain, the same on the
last ten when eleven remain with a leading one, and the empty string
otherwise; with the concrete scenarios of the spec. -/
theorem C6_phone_normalization :
    (∀ s : List Char,
      validatePhoneL s =
        (if (s.filter Char.isDigit).length = 10 then fmtPhone (s.filter Char.isDigit)
         else if (s.filter Char.isDigit).length = 11 ∧
             (s.filter Char.isDigit).head? = some '1' then
           fmtPhone ((s.filter Char.isDigit).drop 1)
         else [])) ∧
    validatePhoneNumber "1-208-555-1234" = "(208) 555-1234" ∧
    validatePhoneNumber "555-1234" = "" ∧
    validatePhoneNumber "208-555-1234" = "(208) 555-1234" :=
  ⟨validatePhone_spec, by decide, by decide, by decide⟩

/-- C7: the deduplication stage returns a subsequence of its input (so the
survivors keep their first-seen order), drops every record with an empty
name, leaves no two survivors sharing a (name, phone) key, and keeps the
first occurrence of every key whose record has a non-empty name. -/
theorem C7_dedup : ∀ l : List B,
    (dedupeStage l).Sublist l ∧
    (∀ r ∈ dedupeStage l, r.name ≠ "") ∧
    (dedupeStage l).Pairwise (fun a b => dkey a ≠ dkey b) ∧
    (∀ pre r post, l = pre ++ r :: post → r.name ≠ "" →
      (∀ x ∈ pre, dkey x ≠ dkey r) → r ∈ dedupeStage l) := by
  intro l
  refine ⟨?_, ?_, ?_, ?_⟩
  · exact (List.filter_sublist _).trans (dedupByKey_sublist l [])
  · intro r hr
    have h := List.of_mem_filter hr
    simpa using h
  · exact List.Pairwise.sublist (List.filter_sublist _) (dedupByKey_pairwise l [])
  · intro pre r post hsplit hname hpre
    apply List.mem_filter.mpr
    refine ⟨?_, by simpa using hname⟩
    rw [hsplit]
    exact dedupByKey_first_mem pre r post [] (by simp) hpre

/-- C7 (witness): the first-occurrence clause applied to a singleton. -/
theorem C7_dedup_witness :
    ({ name := "Acme" } : B) ∈ dedupeStage [{ name := "Acme" }] :=
  (C7_dedup [({ name := "Acme" } : B)]).2.2.2 [] _ [] rfl (by decide)
    (fun x hx => absurd hx (List.not_mem_nil x))

/-- C8 (counterexample): normalization is not idempotent. A record whose
address holds three consecutive commas is collapsed to ",," on the first
pass and to "," on the second (the comma regex scans non-overlapping
matches once), and an owner field of two stacked honorifics keeps
"Mr Smith" on the first pass, which the second pass strips to empty. -/
theorem C8_counterexample :
    normalizeRec (normalizeRec trickyRec) ≠ normalizeRec trickyRec ∧
    (normalizeRec trickyRec).address = ",," ∧
    (normalizeRec (normalizeRec trickyRec)).address = "," ∧
    (normalizeRec trickyRec).owner_name = "Mr Smith" ∧
    (normalizeRec (normalizeRec trickyRec)).owner_name = "" := by
  refine ⟨by decide, by decide, by decide, by decide, by decide⟩

/-- C8 (amended): normalization is idempotent on the name, phone,
review-count and rating fields (the address and owner-name cleaners are the
two non-idempotent ones, per the counterexample). -/
theorem C8_amended_idempotence : ∀ r : B,
    (normalizeRec (normalizeRec r)).name = (normalizeRec r).name ∧
    (normalizeRec (normalizeRec r)).phone = (normalizeRec r).phone ∧
    (normalizeRec (normalizeRec r)).review_count = (normalizeRec r).review_count ∧
    (normalizeRec (normalizeRec r)).star_rating = (normalizeRec r).star_rating := by
  intro r
  refine ⟨?_, ?_, rfl, rfl⟩
  · show cleanBusinessName (cleanBusinessName r.name) = cleanBusinessName r.name
    unfold cleanBusinessName
    exact congrArg String.mk (cleanNameL_idem r.name.data)
  · show validatePhoneNumber (validatePhoneNumber r.phone) = validatePhoneNumber r.phone
    unfold validatePhoneNumber
    exact congrArg String.mk (validatePhone_idem r.phone.data)

/-- C9 (counterexample): creation does not validate that the locations list
is non-empty. A request carrying the locations KEY with an empty list is
accepted: a job is created in Pending and persisted. -/
theorem C9_counterexample :
    (createJob (some ⟨some "Treasure Valley", some [], none, none, none⟩) []).1 =
      .ok { job_name := "Treasure Valley", locations := [], business_type := "HVAC",
            max_reviews := 20, min_quality_score := 40, status := .pending } ∧
    (createJob (some ⟨some "Treasure Valley", some [], none, none, none⟩) []).2.length
      = 1 :=
  ⟨rfl, rfl⟩

/-- C9 (amended): creation rejects an absent body and an absent job_name or
locations KEY, each time leaving the store unchanged; whenever both keys
are present - even with an empty locations list - a job is created in
Pending, appended to the store, and returned. -/
theorem C9_amended_create : ∀ (req : Option CreateRequest) (store : List Job),
    (req = none → createJob req store = (.error "No JSON data provided", store)) ∧
    (∀ d, req = some d → d.job_name = none →
      createJob req store = (.error "Missing required field: job_name", store)) ∧
    (∀ d, req = some d → d.job_name ≠ none → d.locations = none →
      createJob req store = (.error "Missing required field: locations", store)) ∧
    (∀ d nm locs, req = some d → d.job_name = some nm → d.locations = some locs →
      ∃ j : Job, createJob req store = (.ok j, store ++ [j]) ∧ j.status = .pending ∧
        j.job_name = nm ∧ j.locations = locs) := by
  intro req store
  refine ⟨?_, ?_, ?_, ?_⟩
  · intro h
    subst h
    rfl
  · intro d hreq h
    subst hreq
    obtain ⟨jn, locs, bt, mr, mq⟩ := d
    simp only at h
    subst h
    rfl
  · intro d hreq h1 h2
    subst hreq
    obtain ⟨jn, locs, bt, mr, mq⟩ := d
    simp only at h1 h2
    subst h2
    cases jn with
    | none => exact absurd rfl h1
    | some nm => rfl
  · intro d nm ls hreq h1 h2
    subst hreq
    obtain ⟨jn, locs, bt, mr, mq⟩ := d
    simp only at h1 h2
    subst h1
    subst h2
    exact ⟨_, rfl, rfl, rfl, rfl⟩

/-- C9 (witness): the amended theorem applied to a missing-key request and
to a complete request. -/
theorem C9_amended_create_witness :
    createJob (some ⟨none, some ["Boise"], none, none, none⟩) [] =
      (.error "Missing required field: job_name", []) ∧
    ∃ j : Job, createJob (some ⟨some "run", some ["Boise"], none, none, none⟩) [] =
      (.ok j, [] ++ [j]) ∧ j.status = .pending ∧ j.job_name = "run" ∧
      j.locations = ["Boise"] :=
  ⟨(C9_amended_create (some ⟨none, some ["Boise"], none, none, none⟩) []).2.1
      ⟨none, some ["Boise"], none, none, none⟩ rfl rfl,
    (C9_amended_create (some ⟨some "run", some ["Boise"], none, none, none⟩) []).2.2.2
      ⟨some "run", some ["Boise"], none, none, none⟩ "run" ["Boise"] rfl rfl rfl⟩

/-- C10: deduplication collapses on the full (name, phone) pair even when
the phone is empty. Dropping the later of two records that agree on a
non-empty name and both have empty phones never changes the output, whatever
their other fields, and the earlier record survives when no earlier record
shares its key. -/
theorem C10_dedup_empty_phone : ∀ (l1 l2 l3 : List B) (r r2 : B),
    r.name = r2.name → r.name ≠ "" → r.phone = "" → r2.phone = "" →
    (dedupeStage (l1 ++ r :: l2 ++ r2 :: l3) = dedupeStage (l1 ++ r :: l2 ++ l3) ∧
      ((∀ x ∈ l1, dkey x ≠ dkey r) → r ∈ dedupeStage (l1 ++ r :: l2 ++ r2 :: l3))) := by
  intro l1 l2 l3 r r2 hname hne hp1 hp2
  have hkey : dkey r = dkey r2 := by
    unfold dkey
    rw [hname, hp1, hp2]
  constructor
  · unfold dedupeStage dropDuplicatesFirst
    have h := dedupByKey_skip_dup (l1 ++ r :: l2) l3 r2 []
      (Or.inl ⟨r, by simp, hkey⟩)
    rw [show l1 ++ r :: l2 ++ r2 :: l3 = (l1 ++ r :: l2) ++ r2 :: l3 from by simp,
      show l1 ++ r :: l2 ++ l3 = (l1 ++ r :: l2) ++ l3 from by simp, h]
  · intro hpre
    apply List.mem_filter.mpr
    refine ⟨?_, by simpa using hne⟩
    rw [show l1 ++ r :: l2 ++ r2 :: l3 = l1 ++ r :: (l2 ++ r2 :: l3) from by simp]
    exact dedupByKey_first_mem l1 r (l2 ++ r2 :: l3) [] (by simp) hpre

/-- C10 (witness): two empty-phone records sharing a name but differing in
address collapse to the first. -/
theorem C10_dedup_empty_phone_witness :
    dedupeStage [{ name := "Acme", address := "1 Main St" },
      { name := "Acme", address := "2 Oak Ave" }] =
      dedupeStage [{ name := "Acme", address := "1 Main St" }] ∧
    ({ name := "Acme", address := "1 Main St" } : B) ∈
      dedupeStage [{ name := "Acme", address := "1 Main St" },
        { name := "Acme", address := "2 Oak Ave" }] :=
  let h := C10_dedup_empty_phone [] [] [] { name := "Acme", address := "1 Main St" }
    { name := "Acme", address := "2 Oak Ave" } rfl (by decide) rfl rfl
  ⟨h.1, h.2 (fun x hx => absurd hx (List.not_mem_nil x))⟩

end HvacScraper
